import Mathlib

/-!
Shallow embedding of the multiple-linear-regression engine
(`regression.go`, package `regression`).

Numbers are modelled by the rationals `ℚ`: every arithmetic operation of the
source (addition, subtraction, multiplication, division, squaring) is mirrored
by the corresponding field operation.  IEEE-754 rounding is abstracted away; a
division by zero, which in the source produces a non-finite float, here
produces the junk value `0` — crucially, in both settings it produces a value
and never an error.

The source delegates QR factorisation to an external matrix library
(`go.matrix`), which the specification treats as a black-box collaborator with
the contract "input m×n matrix, output Q with m rows and upper-triangular R".
Accordingly `Run` below is parametrised by an arbitrary factorisation function
`qr : Mat → Mat × Mat`; theorems that need it assume only the row-count part
of the contract.

Feature crosses are values of an interface with a `Calculate` capability
(variable vector → derived values).  The interface's defining file is not part
of the sources at hand, so a cross is modelled from the spec (§4.1) as its
`Calculate` function `List ℚ → List ℚ`; the `ExtendNames` capability only
populates display names, which no property here touches, so the name table
(and all other string formatting: `Formula`, `String`, logging) is omitted
from the model.
-/

namespace Regr

/-- DataPoint mirrors the source structure: an observed value, the variable
vector, and the `Predicted`/`Error` fields filled in by the statistics pass. -/
structure DataPoint where
  Observed : ℚ
  Variables : List ℚ
  Predicted : ℚ
  Error : ℚ
deriving DecidableEq

instance : Inhabited DataPoint := ⟨⟨0, [], 0, 0⟩⟩

/-- DataPointWrapper mirrors the source constructor: the fit fields start at
their zero values. -/
def DataPointWrapper (obs : ℚ) (vars : List ℚ) : DataPoint :=
  ⟨obs, vars, 0, 0⟩

/-- FeatureCross is modelled from the spec (§4.1) by its `Calculate`
capability: a pure function from a variable vector to the derived values that
get appended.  The `ExtendNames` capability only assigns display names and is
outside the model. -/
def FeatureCross : Type := List ℚ → List ℚ

/-- Regression mirrors the source model state, minus the display-name table,
the formula string and the `LastTrained` timestamp, none of which any modelled
operation reads.  `CoeffMap` is the map `int → float64` of the source; since
the source only ever stores the contiguous keys `0..n-1` and a missing key
reads as `0`, it is represented as a list indexed positionally with default
`0`.  `Threshold` mirrors the `time.Duration` field (an integer nanosecond
count); no core operation reads it. -/
structure Regression where
  Data : List DataPoint
  CoeffMap : List ℚ
  R2 : ℚ
  Varianceobserved : ℚ
  VariancePredicted : ℚ
  Initialised : Bool
  Crosses : List FeatureCross
  HasRun : Bool
  Threshold : Int

/-- newRegression is the zero value `new(Regression)` of the source. -/
def newRegression : Regression :=
  ⟨[], [], 0, 0, 0, false, [], false, 0⟩

/-- RegErr enumerates the error values of the source package: the three
exported sentinel errors plus the error propagated unchanged from the matrix
library when dimensions do not conform. -/
inductive RegErr where
  | notEnoughData
  | tooManyVars
  | regressionRun
  | matrixErr
deriving DecidableEq

/-- Coeff mirrors the source accessor: `0` when the coefficient map is empty,
otherwise the map lookup (which itself defaults to `0` on a missing key). -/
def Regression.Coeff (r : Regression) (i : Nat) : ℚ :=
  if r.CoeffMap.length = 0 then 0 else r.CoeffMap.getD i 0

/-- Train mirrors the source: append the new points, then mark the model
initialised once more than two points have accumulated (the flag is never
cleared). -/
def Regression.Train (r : Regression) (d : List DataPoint) : Regression :=
  let data := r.Data ++ d
  { r with
    Data := data
    Initialised := if data.length > 2 then true else r.Initialised }

/-- AddCross mirrors the source: register one more feature cross. -/
def Regression.AddCross (r : Regression) (cross : FeatureCross) : Regression :=
  { r with Crosses := r.Crosses ++ [cross] }

/-- SetThreshold mirrors the source setter. -/
def Regression.SetThreshold (r : Regression) (thres : Int) : Regression :=
  { r with Threshold := thres }

/-- crossAll mirrors the loop `vars = append(vars, cross.Calculate(vars)...)`
over the registered crosses, each cross seeing the vector extended by its
predecessors. -/
def crossAll (crosses : List FeatureCross) (vars : List ℚ) : List ℚ :=
  crosses.foldl (fun v cross => v ++ cross v) vars

/-- Predict mirrors the source: fail with `notEnoughData` when the model is
not initialised; otherwise apply every registered cross to the input vector
and return `Coeff 0 + Σ_{j=1..k} Coeff j * vars[j-1]`, where `k` is the
variable count of the first stored data point. -/
def Regression.Predict (r : Regression) (vars : List ℚ) : ℚ × Option RegErr :=
  if r.Initialised = false then (0, some RegErr.notEnoughData)
  else
    let vars2 := crossAll r.Crosses vars
    let k := (r.Data.headD default).Variables.length
    ((List.range k).foldl (fun p t => p + r.Coeff (t + 1) * vars2.getD t 0)
      (r.Coeff 0), none)

/-- applyCrosses mirrors the source: every registered cross is applied, in
registration order, to every stored data point, appending the derived values
to that point's variable vector.  (The source also extends the display-name
table here; names are outside the model.) -/
def Regression.applyCrosses (r : Regression) : Regression :=
  { r with
    Data := r.Data.map (fun point =>
      { point with Variables := crossAll r.Crosses point.Variables }) }

/-- Mat models a matrix of the external `go.matrix` library: explicit row and
column counts and a total entry function (entries outside the bounds read as
the `0` that `Zeros` initialises them to). -/
structure Mat where
  rows : Nat
  cols : Nat
  entry : Nat → Nat → ℚ

/-- Transpose models the library transpose. -/
def Mat.Transpose (m : Mat) : Mat :=
  ⟨m.cols, m.rows, fun i j => m.entry j i⟩

/-- Times models the library matrix product, which reports an error when the
inner dimensions do not conform (the source propagates that error). -/
def Mat.Times (a b : Mat) : Option Mat :=
  if a.cols = b.rows then
    some ⟨a.rows, b.cols, fun i j =>
      ∑ t ∈ Finset.range a.cols, a.entry i t * b.entry t j⟩
  else none

/-- observedVec mirrors the construction of the `observations × 1` column
vector of observed values inside `Run`. -/
def observedVec (data : List DataPoint) : Mat :=
  ⟨data.length, 1, fun i j =>
    if i < data.length ∧ j = 0 then (data.getD i default).Observed else 0⟩

/-- designMat mirrors the construction of the design matrix inside `Run`: one
row per data point, a leading constant column of 1s, then one column per
variable of the (first) data point. -/
def designMat (data : List DataPoint) : Mat :=
  let m := data.length
  let n := (data.headD default).Variables.length + 1
  ⟨m, n, fun i j =>
    if i < m ∧ j < n then
      if j = 0 then 1 else (data.getD i default).Variables.getD (j - 1) 0
    else 0⟩

/-- backSubAux builds the suffix `[c_{n-k}, …, c_{n-1}]` of the coefficient
vector, mirroring the back-substitution loop of `Run` that fills `c` from
index `n-1` down to `0`: each new coefficient starts at `qty[i]`, subtracts
`c[j]·R[i,j]` for each already-computed `j > i`, and divides by `R[i,i]`. -/
def backSubAux (qty : Nat → ℚ) (R : Nat → Nat → ℚ) (n : Nat) : Nat → List ℚ
  | 0 => []
  | k + 1 =>
    let cs := backSubAux qty R n k
    let i := n - (k + 1)
    ((List.range k).foldl (fun acc t => acc - cs.getD t 0 * R i (i + 1 + t))
        (qty i)) / R i i :: cs

/-- backSub is the full coefficient list `[c_0, …, c_{n-1}]` produced by the
back-substitution loop. -/
def backSub (qty : Nat → ℚ) (R : Nat → Nat → ℚ) (n : Nat) : List ℚ :=
  backSubAux qty R n n

/-- calcPredicted mirrors the source statistics pass: each stored point's
`Predicted` field is recomputed by `Predict` on the point's (post-cross)
variable vector, and `Error` is set to predicted minus observed. -/
def Regression.calcPredicted (r : Regression) : Regression :=
  { r with
    Data := r.Data.map (fun d =>
      let p := (r.Predict d.Variables).1
      { d with Predicted := p, Error := p - d.Observed }) }

/-- calcVariance mirrors the source: means of the observed and predicted
values, then the population variances (sums of squared deviations divided by
the number of observations). -/
def Regression.calcVariance (r : Regression) : Regression :=
  let observations : ℚ := (r.Data.length : ℚ)
  let obaverage := (r.Data.map (fun d => d.Observed)).sum / observations
  let praverage := (r.Data.map (fun d => d.Predicted)).sum / observations
  { r with
    Varianceobserved :=
      (r.Data.map (fun d => (d.Observed - obaverage) ^ 2)).sum / observations
    VariancePredicted :=
      (r.Data.map (fun d => (d.Predicted - praverage) ^ 2)).sum / observations }

/-- calcR2 mirrors the source: the stored R² is the ratio of the two variance
fields, with no guard on the denominator. -/
def Regression.calcR2 (r : Regression) : Regression :=
  { r with R2 := r.VariancePredicted / r.Varianceobserved }

/-- Run mirrors the source fitting pipeline, parametrised by the external QR
factorisation.  Checks in source order: initialisation, the has-run flag;
then crosses are applied and `HasRun` is set; then the under-determination
check; then the design matrix and observation vector are built, `Qᵗ·observed`
is computed (its error, impossible for conformant shapes, is propagated),
coefficients are obtained by back-substitution and stored, and the statistics
pass runs.  The returned pair is the model state after the call together with
the error value (`none` on success). -/
def Regression.Run (qr : Mat → Mat × Mat) (r : Regression) :
    Regression × Option RegErr :=
  if r.Initialised = false then (r, some RegErr.notEnoughData)
  else if r.HasRun = true then (r, some RegErr.regressionRun)
  else
    let r1 : Regression := { r.applyCrosses with HasRun := true }
    let observations := r1.Data.length
    let numOfvars := (r1.Data.headD default).Variables.length
    if observations < numOfvars + 1 then (r1, some RegErr.tooManyVars)
    else
      let p := qr (designMat r1.Data)
      match (Mat.Transpose p.1).Times (observedVec r1.Data) with
      | none => (r1, some RegErr.matrixErr)
      | some qty =>
        let n := numOfvars + 1
        let c := backSub (fun i => qty.entry i 0) p.2.entry n
        let r2 : Regression := { r1 with CoeffMap := c }
        let r3 := r2.calcPredicted.calcVariance.calcR2
        ({ r3 with HasRun := true }, none)

/-- perverseMakeDataPoints mirrors the source slow path: for each row, the
observed value is the entry at `obsIndex` and the variables are the remaining
entries in original order, collected by a loop that skips that index. -/
def perverseMakeDataPoints (a : List (List ℚ)) (obsIndex : Nat) :
    List DataPoint :=
  a.map (fun r =>
    DataPointWrapper (r.getD obsIndex 0)
      (r.enum.foldl (fun others p =>
        if p.1 = obsIndex then others else others ++ [p.2]) []))

/-- MakeDataPoints mirrors the source: fast paths slice each row directly when
the observation column is the first or the last one; any other index goes
through the slow rebuilding path. -/
def MakeDataPoints (a : List (List ℚ)) (obsIndex : Nat) : List DataPoint :=
  if obsIndex ≠ 0 ∧ obsIndex ≠ (a.headD []).length - 1 then
    perverseMakeDataPoints a obsIndex
  else if obsIndex = 0 then
    a.map (fun r => DataPointWrapper (r.headD 0) (r.drop 1))
  else
    let last := (a.headD []).length - 1
    a.map (fun r => DataPointWrapper (r.getD last 0) (r.take last))

/-- specDataPoints follows the spec's words for table conversion, for the
refinement comparison: observed = row[index], variables = all other entries of
the row in original order (the row with its `obsIndex`-th entry erased). -/
def specDataPoints (a : List (List ℚ)) (obsIndex : Nat) : List DataPoint :=
  a.map (fun r => DataPointWrapper (r.getD obsIndex 0) (r.eraseIdx obsIndex))

/-- qrW is a concrete factorisation function (identity-shaped Q, R the input
itself) used to instantiate the black-box parameter in witnesses. -/
def qrW : Mat → Mat × Mat := fun M =>
  (⟨M.rows, M.rows, fun i j => if i = j then 1 else 0⟩, M)

/-- wData3 is a concrete training set: three points with one variable each. -/
def wData3 : List DataPoint :=
  [DataPointWrapper 1 [2], DataPointWrapper 2 [3], DataPointWrapper 3 [5]]

/-- wModel is the model obtained by training `wData3` on a fresh model. -/
def wModel : Regression := newRegression.Train wData3

/-- wModelRun is an initialised model whose has-run flag is already set. -/
def wModelRun : Regression :=
  { newRegression with Data := wData3, Initialised := true, HasRun := true }

/-- wModelUnder is a model with three points but three variables per point,
so that after (zero) cross expansion it is under-determined. -/
def wModelUnder : Regression :=
  newRegression.Train
    [DataPointWrapper 1 [1, 2, 3], DataPointWrapper 2 [4, 5, 6],
      DataPointWrapper 3 [7, 8, 9]]

/-- coeffStage is the model state on the success path just after the
coefficients are stored: crosses applied, has-run flag set, coefficient list
back-substituted from the factors of the design matrix. -/
def coeffStage (qr : Mat → Mat × Mat) (r : Regression) : Regression :=
  { r.applyCrosses with
    HasRun := true
    CoeffMap := backSub
      (fun i => ∑ t ∈ Finset.range r.applyCrosses.Data.length,
        (qr (designMat r.applyCrosses.Data)).1.entry t i
          * (observedVec r.applyCrosses.Data).entry t 0)
      (qr (designMat r.applyCrosses.Data)).2.entry
      ((r.applyCrosses.Data.headD default).Variables.length + 1) }


/-! Helper lemmas about the loops of the embedding. -/

lemma foldl_sub_eq (g : Nat → ℚ) (x : ℚ) (k : Nat) :
    (List.range k).foldl (fun acc t => acc - g t) x
      = x - ∑ t ∈ Finset.range k, g t := by
  induction k generalizing x with
  | zero => simp
  | succ k ih =>
    rw [List.range_succ, List.foldl_append]
    simp only [List.foldl_cons, List.foldl_nil]
    rw [ih, Finset.sum_range_succ]
    ring

lemma foldl_add_eq (g : Nat → ℚ) (x : ℚ) (k : Nat) :
    (List.range k).foldl (fun acc t => acc + g t) x
      = x + ∑ t ∈ Finset.range k, g t := by
  induction k generalizing x with
  | zero => simp
  | succ k ih =>
    rw [List.range_succ, List.foldl_append]
    simp only [List.foldl_cons, List.foldl_nil]
    rw [ih, Finset.sum_range_succ]
    ring

lemma backSubAux_length (qty : Nat → ℚ) (R : Nat → Nat → ℚ) (n k : Nat) :
    (backSubAux qty R n k).length = k := by
  induction k with
  | zero => rfl
  | succ k ih => simp [backSubAux, ih]

lemma backSubAux_drop (qty : Nat → ℚ) (R : Nat → Nat → ℚ) (n : Nat) :
    ∀ k j, j ≤ k →
      (backSubAux qty R n k).drop j = backSubAux qty R n (k - j) := by
  intro k
  induction k with
  | zero =>
    intro j hj
    obtain rfl := Nat.le_zero.mp hj
    rfl
  | succ k ih =>
    intro j hj
    cases j with
    | zero => rfl
    | succ j =>
      have hj2 : j ≤ k := Nat.succ_le_succ_iff.mp hj
      have hstep : (backSubAux qty R n (k + 1)).drop (j + 1)
          = (backSubAux qty R n k).drop j := by
        simp [backSubAux]
      rw [hstep, ih j hj2, Nat.succ_sub_succ]

/-- backSub_getD is the back-substitution recurrence of the claim: entry `i`
of the coefficient list equals `qty i` minus the contributions of the later
coefficients, divided by the diagonal entry of `R`. -/
lemma backSub_getD (qty : Nat → ℚ) (R : Nat → Nat → ℚ) (n i : Nat)
    (hi : i < n) :
    (backSub qty R n).getD i 0
      = (qty i - ∑ j ∈ Finset.Ico (i + 1) n,
            (backSub qty R n).getD j 0 * R i j) / R i i := by
  have hin : i ≤ n := Nat.le_of_lt hi
  have hk : n - i = (n - i - 1) + 1 := by omega
  have hdrop : (backSub qty R n).drop i = backSubAux qty R n (n - i) :=
    backSubAux_drop qty R n n i hin
  have hdrop1 : (backSub qty R n).drop (i + 1)
      = backSubAux qty R n (n - i - 1) := by
    have h3 := backSubAux_drop qty R n n (i + 1) hi
    rw [show n - (i + 1) = n - i - 1 from by omega] at h3
    exact h3
  have hidx : n - (n - i - 1 + 1) = i := by omega
  have hhead : (backSub qty R n).getD i 0
      = ((List.range (n - i - 1)).foldl
          (fun acc t =>
            acc - (backSubAux qty R n (n - i - 1)).getD t 0 * R i (i + 1 + t))
          (qty i)) / R i i := by
    have h0 : (backSub qty R n).getD i 0 = ((backSub qty R n).drop i).getD 0 0 := by
      rw [List.getD_eq_getElem?_getD, List.getD_eq_getElem?_getD,
        List.getElem?_drop]
      norm_num
    rw [h0, hdrop, hk]
    simp only [backSubAux, hidx]
    rfl
  rw [hhead, foldl_sub_eq]
  congr 1
  congr 1
  rw [Finset.sum_Ico_eq_sum_range]
  have hrange : n - (i + 1) = n - i - 1 := by omega
  rw [hrange]
  refine Finset.sum_congr rfl (fun t ht => ?_)
  have hgd : (backSubAux qty R n (n - i - 1)).getD t 0
      = (backSub qty R n).getD (i + 1 + t) 0 := by
    rw [← hdrop1, List.getD_eq_getElem?_getD, List.getD_eq_getElem?_getD,
      List.getElem?_drop]
  rw [hgd]

/-- run_success_eq unfolds `Run` on the success path: when the model is
initialised, has not run, is well-determined after cross application, and the
factorisation respects the row-count contract, `Run` returns no error and the
state obtained by storing the back-substituted coefficients and running the
statistics pass. -/
lemma run_success_eq (qr : Mat → Mat × Mat) (r : Regression)
    (hI : r.Initialised = true) (hR : r.HasRun = false)
    (hC : ¬ (r.applyCrosses.Data.length <
        (r.applyCrosses.Data.headD default).Variables.length + 1))
    (hQ : (qr (designMat r.applyCrosses.Data)).1.rows
        = r.applyCrosses.Data.length) :
    Regression.Run qr r =
      (let r1 : Regression := { r.applyCrosses with HasRun := true }
       let p := qr (designMat r1.Data)
       let n := (r1.Data.headD default).Variables.length + 1
       let qty : Nat → ℚ := fun i =>
         ∑ t ∈ Finset.range r1.Data.length,
           p.1.entry t i * (observedVec r1.Data).entry t 0
       let r2 : Regression := { r1 with CoeffMap := backSub qty p.2.entry n }
       ({ r2.calcPredicted.calcVariance.calcR2 with HasRun := true }, none)) := by
  simp only [Regression.Run, hI, hR]
  rw [if_neg (by simp), if_neg hC]
  simp only [Mat.Times, Mat.Transpose, observedVec, hQ]
  simp

/-- run_of_hasRun: on an initialised model whose has-run flag is set, `Run`
returns the already-run error and leaves the state untouched. -/
lemma run_of_hasRun (qr : Mat → Mat × Mat) (r : Regression)
    (hI : r.Initialised = true) (hH : r.HasRun = true) :
    Regression.Run qr r = (r, some RegErr.regressionRun) := by
  simp [Regression.Run, hI, hH]

/-- run_fst_flags: a `Run` that gets past the initialisation and has-run gates
always leaves the has-run flag set and the initialised flag intact, whichever
way it exits afterwards. -/
lemma run_fst_flags (qr : Mat → Mat × Mat) (r : Regression)
    (hI : r.Initialised = true) (hR : r.HasRun = false) :
    (Regression.Run qr r).1.HasRun = true
      ∧ (Regression.Run qr r).1.Initialised = true := by
  simp only [Regression.Run, hI, hR]
  rw [if_neg (show ¬(true = false) from by simp),
    if_neg (show ¬(false = true) from by simp)]
  split
  · simp [Regression.applyCrosses, hI]
  · split
    · simp [Regression.applyCrosses, hI]
    · simp [Regression.applyCrosses, Regression.calcPredicted,
        Regression.calcVariance, Regression.calcR2, hI]

/-- C1: for every model, calling `Run` a second time with no intervening reset
returns the already-run error and performs none of the fitting pipeline (the
state is returned unchanged); the has-run flag, once true, is never cleared by
`Train`, `AddCross` or `Run` (`Predict` is modelled as a pure function that
produces no state at all), so every subsequent `Run` on the same model also
fails with the already-run error. -/
theorem C1_second_run_already_run (r : Regression) (qr qr2 : Mat → Mat × Mat)
    (d : List DataPoint) (c : FeatureCross) :
    ((r.Train d).HasRun = r.HasRun) ∧
    ((r.AddCross c).HasRun = r.HasRun) ∧
    (r.HasRun = true → (Regression.Run qr r).1.HasRun = true) ∧
    (r.Initialised = true → r.HasRun = true →
      Regression.Run qr r = (r, some RegErr.regressionRun)) ∧
    (r.Initialised = true → r.HasRun = false →
      Regression.Run qr2 (Regression.Run qr r).1
        = ((Regression.Run qr r).1, some RegErr.regressionRun)) := by
  refine ⟨rfl, rfl, ?_, ?_, ?_⟩
  · intro hH
    by_cases hI : r.Initialised = true
    · rw [run_of_hasRun qr r hI hH]
      exact hH
    · simp only [Bool.not_eq_true] at hI
      simp [Regression.Run, hI]
      exact hH
  · exact fun hI hH => run_of_hasRun qr r hI hH
  · intro hI hR
    obtain ⟨h1, h2⟩ := run_fst_flags qr r hI hR
    exact run_of_hasRun qr2 _ h2 h1

/-- C1 witness: on a concrete initialised model whose has-run flag is set,
`Run` fails with the already-run error and changes nothing. -/
theorem C1_witness :
    Regression.Run qrW wModelRun = (wModelRun, some RegErr.regressionRun) :=
  (C1_second_run_already_run wModelRun qrW qrW [] id).2.2.2.1 rfl rfl

/-- train_fold_data: folding `Train` over batches appends all their points in
order. -/
lemma train_fold_data (batches : List (List DataPoint)) :
    ∀ r0 : Regression,
      (batches.foldl Regression.Train r0).Data = r0.Data ++ batches.flatten := by
  induction batches with
  | nil => intro r0; simp
  | cons b bs ih =>
    intro r0
    simp only [List.foldl_cons, List.flatten_cons, ih, Regression.Train]
    simp

/-- train_fold_init: folding `Train` preserves the invariant that the
initialised flag holds exactly when at least three points have accumulated. -/
lemma train_fold_init (batches : List (List DataPoint)) :
    ∀ r0 : Regression, (r0.Initialised = true ↔ 3 ≤ r0.Data.length) →
      ((batches.foldl Regression.Train r0).Initialised = true
        ↔ 3 ≤ (batches.foldl Regression.Train r0).Data.length) := by
  induction batches with
  | nil => intro r0 h0; exact h0
  | cons b bs ih =>
    intro r0 h0
    refine ih (r0.Train b) ?_
    simp only [Regression.Train]
    by_cases h : (r0.Data ++ b).length > 2
    · simp only [h, if_pos]
      simpa using h
    · simp only [h, if_false]
      rw [h0]
      constructor
      · intro h3
        have := List.length_append r0.Data b
        omega
      · intro h3
        omega

/-- C2: `Run` on an uninitialised model returns the not-enough-data error
without mutating the model; `Train` always appends the given points whatever
the threshold field holds, and for a model built only through `Train` the
initialised flag holds exactly when at least three points have accumulated. -/
theorem C2_train_initialisation (batches : List (List DataPoint)) (th : Int)
    (qr : Mat → Mat × Mat) (r2 : Regression) :
    ((batches.foldl Regression.Train
        { newRegression with Threshold := th }).Data = batches.flatten) ∧
    ((batches.foldl Regression.Train
        { newRegression with Threshold := th }).Initialised = true
      ↔ 3 ≤ (batches.foldl Regression.Train
        { newRegression with Threshold := th }).Data.length) ∧
    (r2.Initialised = false →
      Regression.Run qr r2 = (r2, some RegErr.notEnoughData)) := by
  refine ⟨?_, ?_, ?_⟩
  · rw [train_fold_data]
    rfl
  · exact train_fold_init batches _ (by simp [newRegression])
  · intro hI
    simp [Regression.Run, hI]

/-- C2 witness: a fresh model is uninitialised, so `Run` fails with the
not-enough-data error and leaves it unchanged; a single three-point batch
trains to an initialised model holding exactly those points. -/
theorem C2_witness :
    Regression.Run qrW newRegression
        = (newRegression, some RegErr.notEnoughData) ∧
      ([wData3].foldl Regression.Train
        { newRegression with Threshold := 0 }).Data = [wData3].flatten :=
  ⟨(C2_train_initialisation [wData3] 0 qrW newRegression).2.2 rfl,
    (C2_train_initialisation [wData3] 0 qrW newRegression).1⟩

/-- C9: when `Run` fails under-determined, the returned state already has the
crosses applied to every stored point and the has-run flag set — the failed
`Run` is not atomic — and every subsequent `Run` on that state returns the
already-run error. -/
theorem C9_tooManyVars_mutates (r : Regression) (qr qr2 : Mat → Mat × Mat)
    (hI : r.Initialised = true) (hR : r.HasRun = false)
    (hC : r.applyCrosses.Data.length <
      (r.applyCrosses.Data.headD default).Variables.length + 1) :
    Regression.Run qr r
        = ({ r.applyCrosses with HasRun := true }, some RegErr.tooManyVars) ∧
      Regression.Run qr2 (Regression.Run qr r).1
        = ((Regression.Run qr r).1, some RegErr.regressionRun) := by
  constructor
  · simp only [Regression.Run, hI, hR]
    rw [if_neg (by simp), if_pos hC]
    simp
  · obtain ⟨h1, h2⟩ := run_fst_flags qr r hI hR
    exact run_of_hasRun qr2 _ h2 h1

/-- C9 witness: a concrete three-point, three-variable model is mutated by the
failing `Run` (crosses applied, has-run flag set) and a retry fails with the
already-run error. -/
theorem C9_witness :
    Regression.Run qrW wModelUnder
        = ({ wModelUnder.applyCrosses with HasRun := true },
            some RegErr.tooManyVars) ∧
      Regression.Run qrW (Regression.Run qrW wModelUnder).1
        = ((Regression.Run qrW wModelUnder).1, some RegErr.regressionRun) :=
  C9_tooManyVars_mutates wModelUnder qrW qrW (by decide) (by decide) (by decide)

/-- C3: the under-determination check of `Run` happens strictly after the
crosses have been applied to every stored point (the state returned with the
too-many-variables error already carries the expanded variable vectors and the
check compares against the post-cross variable count), and registering an
extra cross can push a previously well-determined model into this failure. -/
theorem C3_undetermined_after_crosses (r : Regression) (qr : Mat → Mat × Mat)
    (hI : r.Initialised = true) (hR : r.HasRun = false)
    (hC : r.applyCrosses.Data.length <
      (r.applyCrosses.Data.headD default).Variables.length + 1) :
    Regression.Run qr r
        = ({ r.applyCrosses with HasRun := true }, some RegErr.tooManyVars) ∧
      ∃ (r0 : Regression) (c : FeatureCross) (qr0 : Mat → Mat × Mat),
        (Regression.Run qr0 r0).2 = none ∧
        (Regression.Run qr0 (r0.AddCross c)).2 = some RegErr.tooManyVars := by
  constructor
  · simp only [Regression.Run, hI, hR]
    rw [if_neg (by simp), if_pos hC]
    simp
  · refine ⟨newRegression.Train
      [DataPointWrapper 1 [2, 3], DataPointWrapper 2 [3, 4],
        DataPointWrapper 3 [5, 6]],
      fun v => [v.getD 0 0 * v.getD 1 0], qrW, ?_, ?_⟩
    · decide
    · decide

/-- C3 witness: on a concrete initialised, never-run model that is
under-determined after cross expansion, `Run` fails with the
too-many-variables error and the returned state has the crosses applied. -/
theorem C3_witness :
    Regression.Run qrW wModelUnder
      = ({ wModelUnder.applyCrosses with HasRun := true },
          some RegErr.tooManyVars) :=
  (C3_undetermined_after_crosses wModelUnder qrW (by decide) (by decide)
    (by decide)).1

/-- coeff_empty: with an empty coefficient map every coefficient reads as 0,
mirroring the explicit emptiness guard of the accessor. -/
lemma coeff_empty (r : Regression) (hM : r.CoeffMap = []) (i : Nat) :
    r.Coeff i = 0 := by
  simp [Regression.Coeff, hM]

lemma foldl_const_q (l : List ℕ) (a : ℚ) :
    l.foldl (fun p _ => p) a = a := by
  induction l generalizing a with
  | nil => rfl
  | cons x xs ih => simpa using ih a

/-- C10: on an initialised model whose coefficient map is empty (no `Run` has
ever succeeded), `Predict` returns exactly 0 and no error, for every input
vector whose post-cross length covers the reference arity (the in-bounds
domain of the source's slice indexing). -/
theorem C10_predict_zero_before_fit (r : Regression) (vars : List ℚ)
    (hI : r.Initialised = true) (hM : r.CoeffMap = [])
    (hlen : (r.Data.headD default).Variables.length
        ≤ (crossAll r.Crosses vars).length) :
    r.Predict vars = (0, none) := by
  simp only [Regression.Predict, hI]
  rw [if_neg (show ¬(true = false) from by simp)]
  simp only [coeff_empty r hM, zero_mul, add_zero]
  rw [foldl_const_q]

/-- C10 witness: the concrete trained-but-never-run model predicts 0 on a
concrete input. -/
theorem C10_witness : wModel.Predict [7] = (0, none) :=
  C10_predict_zero_before_fit wModel [7] (by decide) rfl (by decide)

/-- C6: `Predict` fails with the not-enough-data error exactly when the model
is not initialised (a run is not required); on an initialised model it applies
every registered cross in order to the input vector, appending the derived
values, and returns the intercept coefficient plus the sum of coefficient
`i` times crossed-variable `i-1` for `i = 1..k`, with `k` the variable count
recorded on the first stored data point. -/
theorem C6_predict_formula (r : Regression) (vars : List ℚ)
    (hd : r.Data ≠ []) :
    ((r.Predict vars).2 = some RegErr.notEnoughData ↔ r.Initialised = false) ∧
    (r.Initialised = true →
      r.Predict vars
        = (r.Coeff 0 + ∑ t ∈ Finset.range
              (r.Data.headD default).Variables.length,
            r.Coeff (t + 1) * (crossAll r.Crosses vars).getD t 0, none)) := by
  constructor
  · cases hI : r.Initialised with
    | false => simp [Regression.Predict, hI]
    | true => simp [Regression.Predict, hI]
  · intro hI
    simp only [Regression.Predict, hI]
    rw [if_neg (show ¬(true = false) from by simp)]
    rw [foldl_add_eq]

/-- C6 witness: at a concrete initialised model the failure condition is an
equivalence between two false statements. -/
theorem C6_witness :
    (wModel.Predict [7]).2 = some RegErr.notEnoughData
      ↔ wModel.Initialised = false :=
  (C6_predict_formula wModel [7] (by decide)).1

/-- enumFrom_skip_foldl characterises the index-skipping collection loop of
the slow path: starting the index counter at `k`, it appends every element
whose absolute index differs from `i`. -/
lemma enumFrom_skip_foldl (i : Nat) :
    ∀ (r : List ℚ) (k : Nat) (acc : List ℚ),
      (List.enumFrom k r).foldl
          (fun others p => if p.1 = i then others else others ++ [p.2]) acc
        = acc ++ (if k ≤ i then r.take (i - k) ++ r.drop (i - k + 1) else r) := by
  intro r
  induction r with
  | nil =>
    intro k acc
    by_cases hk : k ≤ i <;> simp [hk]
  | cons x xs ih =>
    intro k acc
    simp only [List.enumFrom, List.foldl_cons]
    by_cases hki : k = i
    · subst hki
      rw [if_pos rfl, ih (k + 1) acc, if_neg (by omega), if_pos (le_refl k)]
      simp
    · rw [if_neg hki, ih (k + 1) (acc ++ [x])]
      by_cases hlt : k < i
      · rw [if_pos (by omega), if_pos (by omega)]
        rw [show i - k = (i - k - 1) + 1 from by omega, List.take_succ_cons,
          List.drop_succ_cons, show i - k - 1 + 1 = i - (k + 1) + 1 from by omega,
          show i - k - 1 = i - (k + 1) from by omega]
        simp
      · rw [if_neg (by omega), if_neg (by omega)]
        simp

/-- enum_skip_eraseIdx: the slow-path collection loop over an enumerated row
yields exactly the row with its `i`-th entry erased. -/
lemma enum_skip_eraseIdx (r : List ℚ) (i : Nat) :
    r.enum.foldl (fun others p => if p.1 = i then others else others ++ [p.2]) []
      = r.eraseIdx i := by
  have he : r.enum = List.enumFrom 0 r := rfl
  rw [he, enumFrom_skip_foldl i r 0 [], if_pos (Nat.zero_le i),
    List.eraseIdx_eq_take_drop_succ]
  simp

lemma eraseIdx_zero_q (r : List ℚ) : r.eraseIdx 0 = r.drop 1 := by
  cases r <;> rfl

lemma getD_zero_q (r : List ℚ) : r.getD 0 0 = r.headD 0 := by
  cases r <;> rfl

lemma eraseIdx_last_q (r : List ℚ) (L : Nat) (hlen : r.length = L) :
    r.eraseIdx (L - 1) = r.take (L - 1) := by
  rw [List.eraseIdx_eq_take_drop_succ]
  have hdrop : r.drop (L - 1 + 1) = [] := List.drop_eq_nil_of_le (by omega)
  rw [hdrop, List.append_nil]

/-- C8: on every nonempty rectangular row-major table and valid observation
column index, both the fast slicing paths of `MakeDataPoints` and the slow
rebuilding path realise the prescribed semantics: one data point per row with
observed the entry at the index and variables the remaining entries in
original order. -/
theorem C8_make_data_points (a : List (List ℚ)) (obsIndex : Nat)
    (ha : a ≠ [])
    (hrect : ∀ row ∈ a, row.length = (a.headD []).length)
    (hidx : obsIndex < (a.headD []).length) :
    MakeDataPoints a obsIndex = specDataPoints a obsIndex ∧
    perverseMakeDataPoints a obsIndex = specDataPoints a obsIndex := by
  have hperv : perverseMakeDataPoints a obsIndex = specDataPoints a obsIndex := by
    unfold perverseMakeDataPoints specDataPoints
    refine List.map_congr_left ?_
    intro row hrow
    rw [enum_skip_eraseIdx]
  refine ⟨?_, hperv⟩
  unfold MakeDataPoints
  by_cases h0 : obsIndex = 0
  · subst h0
    rw [if_neg (by simp), if_pos rfl]
    unfold specDataPoints
    refine List.map_congr_left ?_
    intro row hrow
    rw [eraseIdx_zero_q, getD_zero_q]
  · by_cases hlast : obsIndex = (a.headD []).length - 1
    · rw [if_neg (by tauto), if_neg h0]
      unfold specDataPoints
      refine List.map_congr_left ?_
      intro row hrow
      rw [hlast, eraseIdx_last_q row ((a.headD []).length) (hrect row hrow)]
    · rw [if_pos ⟨h0, hlast⟩]
      exact hperv

/-- C8 witness: a concrete 2×3 table with the middle column as observation,
exercising the slow path, and the same table through the public entry point. -/
theorem C8_witness :
    MakeDataPoints [[1, 2, 3], [4, 5, 6]] 1
        = specDataPoints [[1, 2, 3], [4, 5, 6]] 1 ∧
      perverseMakeDataPoints [[1, 2, 3], [4, 5, 6]] 1
        = specDataPoints [[1, 2, 3], [4, 5, 6]] 1 :=
  C8_make_data_points [[1, 2, 3], [4, 5, 6]] 1 (by decide) (by decide)
    (by decide)

/-- run_coeffMap_eq: on the success path the stored coefficient list is the
back-substitution of `Qᵗ·observed` against `R`, for the factors of the design
matrix of the post-cross data. -/
lemma run_coeffMap_eq (qr : Mat → Mat × Mat) (r : Regression)
    (hI : r.Initialised = true) (hR : r.HasRun = false)
    (hC : ¬ (r.applyCrosses.Data.length <
        (r.applyCrosses.Data.headD default).Variables.length + 1))
    (hQ : (qr (designMat r.applyCrosses.Data)).1.rows
        = r.applyCrosses.Data.length) :
    (Regression.Run qr r).1.CoeffMap
      = backSub
          (fun i => ∑ t ∈ Finset.range r.applyCrosses.Data.length,
            (qr (designMat r.applyCrosses.Data)).1.entry t i
              * (r.applyCrosses.Data.getD t default).Observed)
          (qr (designMat r.applyCrosses.Data)).2.entry
          ((r.applyCrosses.Data.headD default).Variables.length + 1) := by
  rw [run_success_eq qr r hI hR hC hQ]
  simp only [Regression.calcPredicted, Regression.calcVariance, Regression.calcR2]
  congr 1
  funext i
  refine Finset.sum_congr rfl (fun t ht => ?_)
  have htm : t < r.applyCrosses.Data.length := List.mem_range.mp ht
  simp [observedVec, htm]

/-- run_error_none: on the success path `Run` reports no error, whatever the
numeric content of the data (in particular whatever the variances turn out to
be). -/
lemma run_error_none (qr : Mat → Mat × Mat) (r : Regression)
    (hI : r.Initialised = true) (hR : r.HasRun = false)
    (hC : ¬ (r.applyCrosses.Data.length <
        (r.applyCrosses.Data.headD default).Variables.length + 1))
    (hQ : (qr (designMat r.applyCrosses.Data)).1.rows
        = r.applyCrosses.Data.length) :
    (Regression.Run qr r).2 = none := by
  rw [run_success_eq qr r hI hR hC hQ]

/-- C5 (amended): for a model with at least 3 points whose post-cross variable
count is at most (points − 1) — equivalently points ≥ variables + 1, which is
the condition the under-determination check enforces; the spec's stated
inequality "variables ≥ points − 1" points the wrong way — `Run` succeeds, the
stored coefficient count is the post-cross variable count plus 1, and the
design matrix pairs coefficient 0 with the constant 1s column (the intercept)
and coefficient `j` with variable `j−1`, in order. -/
theorem C5_run_success_count (r : Regression) (qr : Mat → Mat × Mat)
    (h3 : 3 ≤ r.Data.length)
    (hI : r.Initialised = true) (hR : r.HasRun = false)
    (hC : (r.applyCrosses.Data.headD default).Variables.length + 1
        ≤ r.applyCrosses.Data.length)
    (hQ : (qr (designMat r.applyCrosses.Data)).1.rows
        = r.applyCrosses.Data.length) :
    (Regression.Run qr r).2 = none ∧
    (Regression.Run qr r).1.CoeffMap.length
        = (r.applyCrosses.Data.headD default).Variables.length + 1 ∧
    (∀ t, t < r.applyCrosses.Data.length →
      (designMat r.applyCrosses.Data).entry t 0 = 1 ∧
      ∀ j, 0 < j →
        j < (r.applyCrosses.Data.headD default).Variables.length + 1 →
        (designMat r.applyCrosses.Data).entry t j
          = (r.applyCrosses.Data.getD t default).Variables.getD (j - 1) 0) := by
  have hC2 : ¬ (r.applyCrosses.Data.length <
      (r.applyCrosses.Data.headD default).Variables.length + 1) := by omega
  refine ⟨run_error_none qr r hI hR hC2 hQ, ?_, ?_⟩
  · rw [run_coeffMap_eq qr r hI hR hC2 hQ, backSub, backSubAux_length]
  · intro t ht
    constructor
    · simp [designMat, ht]
    · intro j hj0 hjn
      have hj0n : j ≠ 0 := by omega
      simp only [designMat]
      rw [if_pos (And.intro ht hjn), if_neg hj0n]

/-- C5 witness: the concrete three-point one-variable model satisfies all the
hypotheses and `Run` with the concrete factorisation succeeds. -/
theorem C5_witness :
    (Regression.Run qrW wModel).2 = none ∧
    (Regression.Run qrW wModel).1.CoeffMap.length
        = (wModel.applyCrosses.Data.headD default).Variables.length + 1 :=
  ⟨(C5_run_success_count wModel qrW (by decide) (by decide) (by decide)
      (by decide) rfl).1,
    (C5_run_success_count wModel qrW (by decide) (by decide) (by decide)
      (by decide) rfl).2.1⟩

/-- C5 counterexample: the claim as stated uses the spec's condition
"variables ≥ points − 1"; the concrete model with 3 points and 3 variables
satisfies it (3 ≥ 2) together with the 3-point minimum, yet `Run` fails with
the too-many-variables error instead of succeeding. -/
theorem C5_counterexample :
    3 ≤ wModelUnder.Data.length ∧
    wModelUnder.Data.length - 1
        ≤ (wModelUnder.applyCrosses.Data.headD default).Variables.length ∧
    (Regression.Run qrW wModelUnder).2 = some RegErr.tooManyVars := by
  refine ⟨by decide, by decide, by decide⟩

/-- C4: in a successful `Run` the stored coefficients satisfy the
back-substitution recurrence: coefficient `i` equals `(Qᵗ·observed)[i]` minus
the sum over `j > i` of coefficient `j` times `R[i,j]`, divided by `R[i,i]`,
where `Q`, `R` are the factors the black-box QR produces for the design
matrix (one row per point: a leading 1 then the post-cross variables in
order) and `observed` is the column of observed values. -/
theorem C4_back_substitution (r : Regression) (qr : Mat → Mat × Mat) (i : Nat)
    (hI : r.Initialised = true) (hR : r.HasRun = false)
    (hC : (r.applyCrosses.Data.headD default).Variables.length + 1
        ≤ r.applyCrosses.Data.length)
    (hQ : (qr (designMat r.applyCrosses.Data)).1.rows
        = r.applyCrosses.Data.length)
    (hi : i < (r.applyCrosses.Data.headD default).Variables.length + 1) :
    (designMat r.applyCrosses.Data).rows = r.applyCrosses.Data.length ∧
    (designMat r.applyCrosses.Data).cols
        = (r.applyCrosses.Data.headD default).Variables.length + 1 ∧
    (∀ t, t < r.applyCrosses.Data.length →
      (designMat r.applyCrosses.Data).entry t 0 = 1 ∧
      ∀ j, 0 < j →
        j < (r.applyCrosses.Data.headD default).Variables.length + 1 →
        (designMat r.applyCrosses.Data).entry t j
          = (r.applyCrosses.Data.getD t default).Variables.getD (j - 1) 0) ∧
    (Regression.Run qr r).1.CoeffMap.getD i 0
      = ((∑ t ∈ Finset.range r.applyCrosses.Data.length,
            (qr (designMat r.applyCrosses.Data)).1.entry t i
              * (r.applyCrosses.Data.getD t default).Observed)
          - ∑ j ∈ Finset.Ico (i + 1)
              ((r.applyCrosses.Data.headD default).Variables.length + 1),
              (Regression.Run qr r).1.CoeffMap.getD j 0
                * (qr (designMat r.applyCrosses.Data)).2.entry i j)
        / (qr (designMat r.applyCrosses.Data)).2.entry i i := by
  have hC2 : ¬ (r.applyCrosses.Data.length <
      (r.applyCrosses.Data.headD default).Variables.length + 1) := by omega
  refine ⟨rfl, rfl, ?_, ?_⟩
  · intro t ht
    constructor
    · simp [designMat, ht]
    · intro j hj0 hjn
      have hj0n : j ≠ 0 := by omega
      simp only [designMat]
      rw [if_pos (And.intro ht hjn), if_neg hj0n]
  · rw [run_coeffMap_eq qr r hI hR hC2 hQ]
    exact backSub_getD _ _ _ i hi

/-- C4 witness: all hypotheses hold at the concrete three-point one-variable
model with the concrete factorisation, at coefficient index 0. -/
theorem C4_witness :
    (designMat wModel.applyCrosses.Data).rows
      = wModel.applyCrosses.Data.length :=
  (C4_back_substitution wModel qrW 0 (by decide) (by decide) (by decide) rfl
    (by decide)).1

/-- predict_depends: `Predict` reads only the initialised flag, the crosses,
the coefficient map and the first point's variable count, so two states that
agree on those predict identically. -/
lemma predict_depends (r1 r2 : Regression)
    (h1 : r1.Initialised = r2.Initialised) (h2 : r1.Crosses = r2.Crosses)
    (h3 : r1.CoeffMap = r2.CoeffMap)
    (h4 : (r1.Data.headD default).Variables.length
        = (r2.Data.headD default).Variables.length) :
    r1.Predict = r2.Predict := by
  funext v
  simp only [Regression.Predict, Regression.Coeff, h1, h2, h3, h4]

/-- headD_variables_map: mapping a variable-preserving update over the data
leaves the first point's variable vector unchanged. -/
lemma headD_variables_map (l : List DataPoint) (f : DataPoint → DataPoint)
    (hf : ∀ d, (f d).Variables = d.Variables) :
    ((l.map f).headD default).Variables = (l.headD default).Variables := by
  cases l with
  | nil => rfl
  | cons x xs => simp [hf]

/-- getD_map_dp: an in-bounds default-read through a map is the function of
the default-read. -/
lemma getD_map_dp (l : List DataPoint) (f : DataPoint → DataPoint) (i : Nat)
    (h : i < l.length) :
    (l.map f).getD i default = f (l.getD i default) := by
  simp [List.getD_eq_getElem?_getD, List.getElem?_map,
    List.getElem?_eq_getElem h]

/-- run_eq_coeffStage: on the success path the full `Run` result is the
statistics pass applied to the coefficient-stage state, with no error. -/
lemma run_eq_coeffStage (qr : Mat → Mat × Mat) (r : Regression)
    (hI : r.Initialised = true) (hR : r.HasRun = false)
    (hC : ¬ (r.applyCrosses.Data.length <
        (r.applyCrosses.Data.headD default).Variables.length + 1))
    (hQ : (qr (designMat r.applyCrosses.Data)).1.rows
        = r.applyCrosses.Data.length) :
    Regression.Run qr r
      = ({ (coeffStage qr r).calcPredicted.calcVariance.calcR2
            with HasRun := true }, none) := by
  rw [run_success_eq qr r hI hR hC hQ]
  rfl

/-- run_fst_eq: the state component of a successful `Run`. -/
lemma run_fst_eq (qr : Mat → Mat × Mat) (r : Regression)
    (hI : r.Initialised = true) (hR : r.HasRun = false)
    (hC : ¬ (r.applyCrosses.Data.length <
        (r.applyCrosses.Data.headD default).Variables.length + 1))
    (hQ : (qr (designMat r.applyCrosses.Data)).1.rows
        = r.applyCrosses.Data.length) :
    (Regression.Run qr r).1
      = { (coeffStage qr r).calcPredicted.calcVariance.calcR2
            with HasRun := true } := by
  rw [run_eq_coeffStage qr r hI hR hC hQ]

/-- C7: in a successful `Run`, each stored point's predicted value is
recomputed by the prediction operation of the fitted model on the point's
post-cross variable vector and its residual is set to predicted minus
observed; the stored variance fields are the population variances (sums of
squared deviations from the mean divided by N) of the observed and predicted
values; and R² is stored as their unguarded quotient, with `Run` reporting no
error whatever the variances are — in this rational model a zero observed
variance makes the quotient read as the junk value of division by zero,
standing for the non-finite float of the source, and is still not an error. -/
theorem C7_statistics_pass (r : Regression) (qr : Mat → Mat × Mat)
    (hI : r.Initialised = true) (hR : r.HasRun = false)
    (hC : (r.applyCrosses.Data.headD default).Variables.length + 1
        ≤ r.applyCrosses.Data.length)
    (hQ : (qr (designMat r.applyCrosses.Data)).1.rows
        = r.applyCrosses.Data.length) :
    (Regression.Run qr r).2 = none ∧
    (∀ i, i < r.applyCrosses.Data.length →
      ((Regression.Run qr r).1.Data.getD i default).Variables
          = (r.applyCrosses.Data.getD i default).Variables ∧
      ((Regression.Run qr r).1.Data.getD i default).Observed
          = (r.applyCrosses.Data.getD i default).Observed ∧
      ((Regression.Run qr r).1.Data.getD i default).Predicted
          = ((Regression.Run qr r).1.Predict
              ((r.applyCrosses.Data.getD i default).Variables)).1 ∧
      ((Regression.Run qr r).1.Data.getD i default).Error
          = ((Regression.Run qr r).1.Data.getD i default).Predicted
            - ((Regression.Run qr r).1.Data.getD i default).Observed) ∧
    ((Regression.Run qr r).1.Varianceobserved
        = ((Regression.Run qr r).1.Data.map (fun d =>
            (d.Observed
              - ((Regression.Run qr r).1.Data.map (fun d => d.Observed)).sum
                / ((Regression.Run qr r).1.Data.length : ℚ)) ^ 2)).sum
          / ((Regression.Run qr r).1.Data.length : ℚ)) ∧
    ((Regression.Run qr r).1.VariancePredicted
        = ((Regression.Run qr r).1.Data.map (fun d =>
            (d.Predicted
              - ((Regression.Run qr r).1.Data.map (fun d => d.Predicted)).sum
                / ((Regression.Run qr r).1.Data.length : ℚ)) ^ 2)).sum
          / ((Regression.Run qr r).1.Data.length : ℚ)) ∧
    ((Regression.Run qr r).1.R2
        = (Regression.Run qr r).1.VariancePredicted
          / (Regression.Run qr r).1.Varianceobserved) := by
  have hC2 : ¬ (r.applyCrosses.Data.length <
      (r.applyCrosses.Data.headD default).Variables.length + 1) := by omega
  rw [run_fst_eq qr r hI hR hC2 hQ]
  refine ⟨run_error_none qr r hI hR hC2 hQ, ?_, rfl, rfl, rfl⟩
  intro i hilen
  have hilen2 : i < (coeffStage qr r).Data.length := hilen
  have hS : ({ (coeffStage qr r).calcPredicted.calcVariance.calcR2
        with HasRun := true } : Regression).Data
      = (coeffStage qr r).Data.map (fun d =>
          { d with
            Predicted := ((coeffStage qr r).Predict d.Variables).1
            Error := ((coeffStage qr r).Predict d.Variables).1 - d.Observed }) :=
    rfl
  have hgd : ({ (coeffStage qr r).calcPredicted.calcVariance.calcR2
        with HasRun := true } : Regression).Data.getD i default
      = (fun d : DataPoint =>
          { d with
            Predicted := ((coeffStage qr r).Predict d.Variables).1
            Error := ((coeffStage qr r).Predict d.Variables).1 - d.Observed })
        ((coeffStage qr r).Data.getD i default) := by
    rw [hS]
    exact getD_map_dp _ _ i hilen2
  have hPred : ({ (coeffStage qr r).calcPredicted.calcVariance.calcR2
        with HasRun := true } : Regression).Predict
      = (coeffStage qr r).Predict := by
    refine predict_depends _ _ rfl rfl rfl ?_
    rw [hS]
    exact congrArg List.length (headD_variables_map _ _ (fun d => rfl))
  refine ⟨?_, ?_, ?_, ?_⟩
  · simp only [hgd]
    rfl
  · simp only [hgd]
    rfl
  · simp only [hgd, hPred]
    rfl
  · simp only [hgd]

/-- C7 witness: at the concrete three-point one-variable model with the
concrete factorisation, the stored R² is the quotient of the stored
variances. -/
theorem C7_witness :
    (Regression.Run qrW wModel).1.R2
      = (Regression.Run qrW wModel).1.VariancePredicted
        / (Regression.Run qrW wModel).1.Varianceobserved :=
  (C7_statistics_pass wModel qrW (by decide) (by decide) (by decide)
    rfl).2.2.2.2

end Regr
